import Mathlib

/-!
# Parking simulator: admission engine

A shallow embedding of `src/models/parkingLot.go` (with `interfaces.go` and
`characters/car.go`).  The shared `ParkingLot` record is translated field by
field; every goroutine is a `Task` whose constructor is its program point, and
one `step` of the system runs one atomic piece of one goroutine: a mutex
critical section, a channel send or receive on `gate`, one `select`, or one
`NotifyAll` call.  `fmt.Printf` logging and the `time.Sleep` delays carry no
state and are left out; the observers' deliveries are recorded as the ordered
trace `events` of the `NotifyAll` calls.

Go `int` values are `Int`. `p.currentCars--` in `Leave` is `decInt64`, with Go's
wrap at `math.MinInt64`. `p.currentCars++` in `findSpot` is `+ 1`: it runs only
when a spot is free, where under the lot invariant `currentCars < len(spots)`.

A `select` that finds neither case ready blocks the goroutine (`enterWait`,
`leaveWait`). A blocked goroutine is completed by the first of the two events,
the close of `stopSignal` or room in `gate`: when it is run again it returns if
`stopSignal` is closed and takes the gate otherwise; the runs in which the room
came first are the schedules that run it before `Stop`.
-/

namespace ParkingSim

/-- Vehicle of `characters/car.go`: only an identity. -/
structure Car where
  ID : Int
  deriving DecidableEq, Repr

/-- Event payload `Position` of `models/interfaces.go`. Unset fields carry Go's
zero value `0`. -/
structure Position where
  ID : Int
  Spot : Int
  Status : String
  QueuePosition : Int
  deriving DecidableEq, Repr

/-- Shared state of `ParkingLot`. `gate` is the buffered channel of size one:
`true` when it holds its token (the gate is taken). `stopSignal` is `true` once
the channel has been closed. The observer list is represented by the event
trace of the system state. -/
structure ParkingLot where
  capacity : Int
  currentCars : Int
  spots : List Bool
  waitingQueue : List Int
  gate : Bool
  stopSignal : Bool
  deriving DecidableEq, Repr

/-- Run-time panics of the Go program that the embedding can reach. -/
inductive Fault where
  | makesliceLenOutOfRange
  | closeOfClosedChannel
  | indexOutOfRange
  deriving DecidableEq, Repr

/-- `NewParkingLot`: no validation of `capacity`; `make([]bool, capacity)`
panics for a negative length and yields `capacity` entries `false` otherwise. -/
def NewParkingLot (capacity : Int) : Except Fault ParkingLot :=
  if capacity < 0 then .error .makesliceLenOutOfRange
  else .ok
    { capacity := capacity
      currentCars := 0
      spots := List.replicate capacity.toNat false
      waitingQueue := []
      gate := false
      stopSignal := false }

/-- The `range p.spots` loop of `findSpot`: index of the first entry that is
not occupied. -/
def firstFree : List Bool → Option Nat
  | [] => none
  | occupied :: rest =>
    if !occupied then some 0 else (firstFree rest).map (· + 1)

/-- `findSpot`, one critical section: marks the first free spot, increments
`currentCars` and returns the index, or returns `-1` and changes nothing. -/
def findSpot (p : ParkingLot) : ParkingLot × Int :=
  match firstFree p.spots with
  | some i =>
    ({ p with spots := p.spots.set i true, currentCars := p.currentCars + 1 }, (i : Int))
  | none => (p, -1)

/-- `Stop`: `close(p.stopSignal)`; closing a closed channel panics. -/
def Stop (p : ParkingLot) : Except Fault ParkingLot :=
  if p.stopSignal then .error .closeOfClosedChannel
  else .ok { p with stopSignal := true }

/-- Program points of the goroutines. The `enter*` points are those of
`TryToEnter`, the `leave*` points those of `Leave`. -/
inductive Task where
  /-- Before the read-locked `isFull := p.currentCars >= p.capacity`. -/
  | enterCheck (vehicle : Car)
  /-- Saw `isFull`; before the write-locked append to `waitingQueue`. -/
  | enterAppend (vehicle : Car)
  /-- Appended; before `NotifyAll` of the waiting event. -/
  | enterNotifyWaiting (vehicle : Car) (queueLen : Int)
  /-- About to run the `select` between `p.gate <- struct{}{}` and
  `<-p.stopSignal`. -/
  | enterGate (vehicle : Car)
  /-- Blocked in that `select`: the gate was taken and `stopSignal` open when it
  ran. -/
  | enterWait (vehicle : Car)
  /-- Holds the gate; before `spot := p.findSpot()`. -/
  | enterFind (vehicle : Car)
  /-- Got `spot != -1`; before `<-p.gate`. -/
  | enterRelease (vehicle : Car) (spot : Int)
  /-- Before `NotifyAll` of the parked event and the `go` of the departure. -/
  | enterNotifyParked (vehicle : Car) (spot : Int)
  /-- Departure goroutine, about to run the `select` of `Leave`. -/
  | leaveGate (vehicle : Car) (spot : Int)
  /-- Blocked in the `select` of `Leave`. -/
  | leaveWait (vehicle : Car) (spot : Int)
  /-- Holds the gate; before the critical section of `Leave`. -/
  | leaveCrit (vehicle : Car) (spot : Int)
  /-- Before `<-p.gate` in `Leave`. -/
  | leaveRelease (vehicle : Car) (spot : Int) (nextVehicle : Option Car)
  /-- Before `NotifyAll` of the left event and the `go p.TryToEnter(nextVehicle)`. -/
  | leaveNotify (vehicle : Car) (spot : Int) (nextVehicle : Option Car)
  /-- Returned. -/
  | done
  deriving DecidableEq, Repr

/-- System state: the lot, the goroutines started so far, and the events passed
to `NotifyAll`, oldest first. -/
structure Sys where
  lot : ParkingLot
  tasks : List Task
  events : List Position
  deriving DecidableEq, Repr

/-- What the scheduler can do next: start a `TryToEnter` goroutine (the arrival
generator's `go p.TryToEnter(vehicle)`), run the next atomic piece of goroutine
`i` (`cancel` chooses the `<-p.stopSignal` case at a `select`), or call `Stop`. -/
inductive Action where
  | arrive (vehicle : Car)
  | run (i : Nat) (cancel : Bool)
  | stop
  deriving DecidableEq, Repr

/-- Go's `x--` on a 64-bit `int`: one less, wrapping from `math.MinInt64` to
`math.MaxInt64`. -/
def decInt64 (x : Int) : Int :=
  if x = -9223372036854775808 then 9223372036854775807 else x - 1

/-- The critical section of `Leave` (between `p.mutex.Lock()` and
`p.mutex.Unlock()`): clears the spot, decrements `currentCars`, pops the head
of the waiting queue. Indexing outside `p.spots` panics. -/
def leaveCritical (p : ParkingLot) (spot : Int) : Except Fault (ParkingLot × Option Car) :=
  if 0 ≤ spot ∧ spot.toNat < p.spots.length then
    let p1 := { p with spots := p.spots.set spot.toNat false,
                       currentCars := decInt64 p.currentCars }
    match p1.waitingQueue with
    | nextID :: rest => .ok ({ p1 with waitingQueue := rest }, some ⟨nextID⟩)
    | [] => .ok (p1, none)
  else .error .indexOutOfRange

/-- Result of one atomic piece of a goroutine: the new lot, the program point
reached, the events passed to `NotifyAll` and the goroutines started by `go`. -/
abbrev Piece := ParkingLot × Task × List Position × List Task

/-- `TryToEnter`, one atomic piece from program point `t`. At `enterGate` the
`select` runs: `cancel` chooses the `<-p.stopSignal` case, which must be ready;
otherwise the send on `gate` is taken if there is room, and with the gate taken
and `stopSignal` open the goroutine blocks. A blocked goroutine returns once
`stopSignal` is closed and takes the gate once there is room. `none` when the
goroutine cannot move: it stays blocked, or the chosen case is not ready. -/
def TryToEnter (p : ParkingLot) (cancel : Bool) : Task → Option Piece
  | .enterCheck v =>
    let isFull := decide (p.currentCars ≥ p.capacity)
    if isFull then some (p, .enterAppend v, [], []) else some (p, .enterGate v, [], [])
  | .enterAppend v =>
    let p1 := { p with waitingQueue := p.waitingQueue ++ [v.ID] }
    let queueLen : Int := p1.waitingQueue.length
    some (p1, .enterNotifyWaiting v queueLen, [], [])
  | .enterNotifyWaiting v queueLen =>
    some (p, .done, [{ ID := v.ID, Spot := 0, Status := "waiting in queue", QueuePosition := queueLen }], [])
  | .enterGate v =>
    if cancel then
      if p.stopSignal then some (p, .done, [], []) else none
    else if p.gate then
      if p.stopSignal then none else some (p, .enterWait v, [], [])
    else some ({ p with gate := true }, .enterFind v, [], [])
  | .enterWait v =>
    if p.stopSignal then some (p, .done, [], [])
    else if p.gate then none
    else some ({ p with gate := true }, .enterFind v, [], [])
  | .enterFind v =>
    let (p1, spot) := findSpot p
    if spot ≠ -1 then some (p1, .enterRelease v spot, [], [])
    else some (p1, .done, [], [])
  | .enterRelease v spot =>
    if p.gate then some ({ p with gate := false }, .enterNotifyParked v spot, [], []) else none
  | .enterNotifyParked v spot =>
    some (p, .done, [{ ID := v.ID, Spot := spot, Status := "parked", QueuePosition := 0 }],
      [.leaveGate v spot])
  | _ => none

/-- `Leave`, one atomic piece from program point `t`; its `select` is that of
`TryToEnter`. `none` when the goroutine cannot move: it stays blocked, the
chosen `select` case is not ready, or indexing `p.spots` panicked. -/
def Leave (p : ParkingLot) (cancel : Bool) : Task → Option Piece
  | .leaveGate v spot =>
    if cancel then
      if p.stopSignal then some (p, .done, [], []) else none
    else if p.gate then
      if p.stopSignal then none else some (p, .leaveWait v spot, [], [])
    else some ({ p with gate := true }, .leaveCrit v spot, [], [])
  | .leaveWait v spot =>
    if p.stopSignal then some (p, .done, [], [])
    else if p.gate then none
    else some ({ p with gate := true }, .leaveCrit v spot, [], [])
  | .leaveCrit v spot =>
    match leaveCritical p spot with
    | .ok (p1, nextVehicle) => some (p1, .leaveRelease v spot nextVehicle, [], [])
    | .error _ => none
  | .leaveRelease v spot nextVehicle =>
    if p.gate then some ({ p with gate := false }, .leaveNotify v spot nextVehicle, [], []) else none
  | .leaveNotify v spot nextVehicle =>
    some (p, .done, [{ ID := v.ID, Spot := spot, Status := "left", QueuePosition := 0 }],
      match nextVehicle with
      | some nv => [.enterCheck nv]
      | none => [])
  | _ => none

/-- One atomic piece of the goroutine at program point `t`; a goroutine that has
returned does not move. -/
def stepTask (p : ParkingLot) (cancel : Bool) (t : Task) : Option Piece :=
  match t with
  | .leaveGate _ _ => Leave p cancel t
  | .leaveWait _ _ => Leave p cancel t
  | .leaveCrit _ _ => Leave p cancel t
  | .leaveRelease _ _ _ => Leave p cancel t
  | .leaveNotify _ _ _ => Leave p cancel t
  | .done => none
  | _ => TryToEnter p cancel t

/-- One scheduler step of the whole system. -/
def step (s : Sys) : Action → Option Sys
  | .arrive v => some { s with tasks := s.tasks ++ [.enterCheck v] }
  | .stop =>
    match Stop s.lot with
    | .ok p => some { s with lot := p }
    | .error _ => none
  | .run i cancel =>
    match s.tasks[i]? with
    | none => none
    | some t =>
      match stepTask s.lot cancel t with
      | none => none
      | some (p, t1, evs, spawned) =>
        some { lot := p, tasks := s.tasks.set i t1 ++ spawned, events := s.events ++ evs }

/-- Runs a schedule from `s`; `none` when some action of it cannot be taken. -/
def exec (s : Sys) : List Action → Option Sys
  | [] => some s
  | a :: rest =>
    match step s a with
    | none => none
    | some s1 => exec s1 rest

/-- Goroutine `i` run alone from `s` until it returns, for at most `fuel`
atomic pieces. -/
def runAlone : Nat → Sys → Nat → Bool → Option Sys
  | 0, s, i, _ => if s.tasks[i]? = some .done then some s else none
  | fuel + 1, s, i, cancel =>
    if s.tasks[i]? = some .done then some s
    else
      match step s (.run i cancel) with
      | none => none
      | some s1 => runAlone fuel s1 i cancel

/-- System in which nothing has started: a fresh lot, no goroutine, no event. -/
def initSys (p : ParkingLot) : Sys := { lot := p, tasks := [], events := [] }

/-- Number of occupied entries of `spots`. -/
def occupied (spots : List Bool) : Int := (spots.count true : Nat)

/-- Two arrivals at a lot of capacity one that both pass the capacity check
before either allocates: vehicle 1 parks, vehicle 2 then takes the gate and
calls `findSpot` on the full lot. -/
def overAdmission : List Action :=
  [.arrive ⟨1⟩, .arrive ⟨2⟩, .run 0 false, .run 1 false,
   .run 0 false, .run 0 false, .run 0 false, .run 0 false,
   .run 1 false, .run 1 false]

/-- One arrival that takes the gate, then `Stop`. -/
def stopWhileInGate : List Action :=
  [.arrive ⟨1⟩, .run 0 false, .run 0 false, .stop]

/-- The three remaining pieces of the attempt holding the gate: `findSpot`,
gate release, `NotifyAll`. -/
def finishAttempt : List Action :=
  [.run 0 false, .run 0 false, .run 0 false]

/-- Spot that `findSpot` gave to the goroutine and that its own `Leave` has not
cleared yet. -/
def holds : Task → Option Int
  | .enterRelease _ spot => some spot
  | .enterNotifyParked _ spot => some spot
  | .leaveGate _ spot => some spot
  | .leaveWait _ spot => some spot
  | .leaveCrit _ spot => some spot
  | _ => none

/-- Spots held by the goroutines of a task list, in task order. -/
def heldSpots (ts : List Task) : List Int := ts.filterMap holds

/-- The goroutine has its spot but has not published "parked" yet. -/
def preParked : Task → Bool
  | .enterRelease _ _ => true
  | .enterNotifyParked _ _ => true
  | _ => false

/-- The goroutine has cleared its spot but has not published "left" yet. -/
def preLeft : Task → Bool
  | .leaveRelease _ _ _ => true
  | .leaveNotify _ _ _ => true
  | _ => false

/-- Number of published events with the given status. -/
def published (status : String) (evs : List Position) : Nat :=
  evs.countP (fun e => e.Status == status)

/-- Invariant of the engine: the data invariant of the lot (`len`, `cnt`), the
ownership of occupied spots by goroutines (`held`, `nodup`), and the balance
between occupied spots and the "parked" and "left" events (`bal`). -/
structure Inv (s : Sys) : Prop where
  len : (s.lot.spots.length : Int) = s.lot.capacity
  cnt : s.lot.currentCars = occupied s.lot.spots
  held : ∀ sp ∈ heldSpots s.tasks, 0 ≤ sp ∧ s.lot.spots[sp.toNat]? = some true
  nodup : (heldSpots s.tasks).Nodup
  bal : s.lot.spots.count true + s.tasks.countP preLeft + published "left" s.events =
    s.tasks.countP preParked + published "parked" s.events

/-- One arrival at a lot of capacity one that parks and later leaves: the five
pieces of its `TryToEnter`, then the four pieces of its `Leave`. -/
def parkAndLeave : List Action :=
  [.arrive ⟨1⟩, .run 0 false, .run 0 false, .run 0 false, .run 0 false, .run 0 false,
   .run 1 false, .run 1 false, .run 1 false, .run 1 false]

/-- Scenario B: an empty lot of capacity 2 and three `TryToEnter` goroutines
started together. -/
def scenarioB (a b c : Car) : Sys :=
  ⟨⟨2, 0, [false, false], [], false, false⟩, [.enterCheck a, .enterCheck b, .enterCheck c], []⟩

/-- ID that the action appends to `waitingQueue`: goroutine `i` is at the
append of `TryToEnter`. -/
def enqueues (s : Sys) : Action → List Int
  | .run i _ =>
    match s.tasks[i]? with
    | some (.enterAppend v) => [v.ID]
    | _ => []
  | _ => []

/-- ID that the action pops from `waitingQueue`: goroutine `i` is at the
critical section of `Leave` and the section takes `nextID`. -/
def dequeues (s : Sys) : Action → List Int
  | .run i _ =>
    match s.tasks[i]? with
    | some (.leaveCrit _ spot) =>
      match leaveCritical s.lot spot with
      | .ok (_, some nextVehicle) => [nextVehicle.ID]
      | _ => []
    | _ => []
  | _ => []

/-- IDs appended to `waitingQueue` during the schedule, in order. -/
def enqueued : Sys → List Action → List Int
  | _, [] => []
  | s, a :: rest =>
    match step s a with
    | none => []
    | some s1 => enqueues s a ++ enqueued s1 rest

/-- IDs popped from `waitingQueue` during the schedule, in order. -/
def dequeued : Sys → List Action → List Int
  | _, [] => []
  | s, a :: rest =>
    match step s a with
    | none => []
    | some s1 => dequeues s a ++ dequeued s1 rest

/-- Capacity one: vehicle 1 parks, vehicles 2 and 3 arrive at the full lot and
are queued, then vehicle 1 leaves. -/
def queueTwoThenLeave : List Action :=
  [.arrive ⟨1⟩, .run 0 false, .run 0 false, .run 0 false, .run 0 false, .run 0 false,
   .arrive ⟨2⟩, .run 2 false, .run 2 false, .run 2 false,
   .arrive ⟨3⟩, .run 3 false, .run 3 false, .run 3 false,
   .run 1 false, .run 1 false, .run 1 false, .run 1 false]

/-- Program points from which a `TryToEnter` can still reach its "parked"
`NotifyAll` once `stopSignal` is closed: its `select` has not run yet
(`enterCheck`, `enterGate`), or it is past the `select` with the gate
(`enterFind`, `enterRelease`, `enterNotifyParked`). -/
def canStillPark : Task → Bool
  | .enterCheck _ => true
  | .enterGate _ => true
  | .enterFind _ => true
  | .enterRelease _ _ => true
  | .enterNotifyParked _ _ => true
  | _ => false

/-- Number of "parked" events that the action passes to `NotifyAll` on behalf
of goroutine `i`. -/
def parksAt (i : Nat) (s : Sys) : Action → Nat
  | .run j cancel =>
    if j = i then
      match s.tasks[j]? with
      | some t =>
        match stepTask s.lot cancel t with
        | some (_, _, evs, _) => published "parked" evs
        | none => 0
      | none => 0
    else 0
  | _ => 0

/-- Number of "parked" events published by goroutine `i` during the schedule. -/
def parkedBy (i : Nat) : Sys → List Action → Nat
  | _, [] => 0
  | s, a :: rest =>
    match step s a with
    | none => 0
    | some s1 => parksAt i s a + parkedBy i s1 rest

/-- One arrival that passes the capacity check, then `Stop` before its
`select` runs. -/
def stopBeforeSelect : List Action :=
  [.arrive ⟨1⟩, .run 0 false, .stop]

/-- The four remaining pieces of an attempt whose `select` takes the gate:
the `select`, `findSpot`, gate release, `NotifyAll`. -/
def selectAndPark : List Action :=
  [.run 0 false, .run 0 false, .run 0 false, .run 0 false]

/-- Continuation after `Stop` with goroutine 0 holding the gate and goroutine 1
blocked in its `select`: the holder allocates and frees the gate, the blocked
goroutine is run, the holder publishes. -/
def holderThenWaiter : List Action :=
  [.run 0 false, .run 0 false, .run 1 false, .run 0 false]

/-! ## Sequential behaviour of one call -/

theorem firstFree_some (l : List Bool) (i : Nat) (h : firstFree l = some i) :
    i < l.length ∧ l[i]? = some false ∧ ∀ j, j < i → l[j]? = some true := by
  induction l generalizing i with
  | nil => simp [firstFree] at h
  | cons b rest ih =>
    cases b with
    | false =>
      have h0 : i = 0 := by simpa [firstFree, eq_comm] using h
      subst h0
      simp
    | true =>
      simp only [firstFree, Bool.not_true, Bool.false_eq_true, if_false, Option.map_eq_some'] at h
      obtain ⟨k, hk, rfl⟩ := h
      obtain ⟨hlt, hget, hbefore⟩ := ih k hk
      refine ⟨by simpa using hlt, by simpa using hget, ?_⟩
      intro j hj
      cases j with
      | zero => simp
      | succ m => simpa using hbefore m (by omega)

theorem firstFree_spec (l : List Bool) (h : false ∈ l) :
    ∃ i, firstFree l = some i ∧ i < l.length ∧ l[i]? = some false ∧
      ∀ j, j < i → l[j]? = some true := by
  cases hff : firstFree l with
  | some i => exact ⟨i, rfl, firstFree_some l i hff⟩
  | none =>
    exfalso
    induction l with
    | nil => simp at h
    | cons b rest ih =>
      cases b with
      | false => simp [firstFree] at hff
      | true =>
        have h1 : false ∈ rest := by simpa using h
        have h2 : firstFree rest = none := by simpa [firstFree] using hff
        exact ih h1 h2

theorem occupied_lt_length (l : List Bool) (h : false ∈ l) : occupied l < (l.length : Int) := by
  have hle : l.count true ≤ l.length := List.count_le_length true l
  have hne : l.count true ≠ l.length := by
    intro heq
    have hall := List.count_eq_length.mp heq
    have := hall false h
    simp at this
  unfold occupied
  omega

theorem runAlone_done (fuel : Nat) (s : Sys) (i : Nat) (cancel : Bool)
    (h : s.tasks[i]? = some .done) : runAlone fuel s i cancel = some s := by
  cases fuel <;> simp [runAlone, h]

/-- C5. With `currentCars >= capacity`, a `TryToEnter` run alone appends the
vehicle's ID at the tail of `waitingQueue`, publishes exactly one event, with
that ID, status "waiting in queue" and `QueuePosition` the new queue length (old
length + 1), and leaves `spots`, `currentCars` and the gate as they were. -/
theorem TryToEnter_full_enqueues (p : ParkingLot) (v : Car) (evs : List Position)
    (cancel : Bool) (fuel : Nat) (hfull : p.currentCars ≥ p.capacity) :
    ∃ s, runAlone (fuel + 3) ⟨p, [.enterCheck v], evs⟩ 0 cancel = some s ∧
      s.lot.waitingQueue = p.waitingQueue ++ [v.ID] ∧
      s.events = evs ++ [⟨v.ID, 0, "waiting in queue", (p.waitingQueue.length : Int) + 1⟩] ∧
      s.lot.spots = p.spots ∧ s.lot.currentCars = p.currentCars ∧ s.lot.gate = p.gate ∧
      s.lot.capacity = p.capacity ∧ s.lot.stopSignal = p.stopSignal ∧ s.tasks = [.done] := by
  simp [runAlone, step, stepTask, TryToEnter, Leave, hfull, runAlone_done]

theorem TryToEnter_full_enqueues_witness :
    (1 : Int) ≥ 1 ∧
    ∃ s, runAlone (0 + 3) ⟨⟨1, 1, [true], [7], false, false⟩, [.enterCheck ⟨8⟩], []⟩ 0 false = some s ∧
      s.lot.waitingQueue = [7] ++ [(8 : Int)] ∧
      s.events = [] ++ [⟨8, 0, "waiting in queue", (([7] : List Int).length : Int) + 1⟩] ∧
      s.lot.spots = [true] ∧ s.lot.currentCars = 1 ∧ s.lot.gate = false ∧
      s.lot.capacity = 1 ∧ s.lot.stopSignal = false ∧ s.tasks = [.done] :=
  ⟨by decide, TryToEnter_full_enqueues ⟨1, 1, [true], [7], false, false⟩ ⟨8⟩ [] false 0 (by decide)⟩

/-- C6. On a lot that satisfies the data invariant, has a free spot and a free
gate, a `TryToEnter` run alone whose `select` takes the gate allocates the
smallest free index `i`: exactly `spots[i]` becomes `true`, `currentCars` grows
by one, the waiting queue is untouched, the gate is free again, and exactly one
event is published, with the vehicle's ID, status "parked" and `Spot = i`. -/
theorem TryToEnter_parks_first_free (p : ParkingLot) (v : Car) (evs : List Position)
    (fuel : Nat) (hlen : (p.spots.length : Int) = p.capacity)
    (hcnt : p.currentCars = occupied p.spots) (hfree : false ∈ p.spots)
    (hgate : p.gate = false) :
    ∃ i, i < p.spots.length ∧ p.spots[i]? = some false ∧
      (∀ j, j < i → p.spots[j]? = some true) ∧
      ∃ s, runAlone (fuel + 5) ⟨p, [.enterCheck v], evs⟩ 0 false = some s ∧
      s.lot.spots = p.spots.set i true ∧ s.lot.currentCars = p.currentCars + 1 ∧
      s.lot.waitingQueue = p.waitingQueue ∧ s.lot.gate = false ∧
      s.events = evs ++ [⟨v.ID, (i : Int), "parked", 0⟩] ∧
      s.tasks = [.done, .leaveGate v (i : Int)] ∧
      s.lot.capacity = p.capacity ∧ s.lot.stopSignal = p.stopSignal := by
  obtain ⟨i, hi, hlt, hget, hbefore⟩ := firstFree_spec p.spots hfree
  have hroom : ¬ p.currentCars ≥ p.capacity := by
    have := occupied_lt_length p.spots hfree
    omega
  have hne : ¬ ((i : Int) = -1) := by omega
  refine ⟨i, hlt, hget, hbefore, ?_⟩
  simp [runAlone, step, stepTask, TryToEnter, Leave, findSpot, hi, hgate, hroom, hne, runAlone_done]

theorem TryToEnter_parks_first_free_witness :
    ((([true, false, false] : List Bool).length : Int) = 3 ∧
      (1 : Int) = occupied [true, false, false] ∧ false ∈ [true, false, false] ∧
      (false : Bool) = false) ∧
    ∃ i, i < ([true, false, false] : List Bool).length ∧
      ([true, false, false] : List Bool)[i]? = some false ∧
      (∀ j, j < i → ([true, false, false] : List Bool)[j]? = some true) ∧
      ∃ s, runAlone (0 + 5) ⟨⟨3, 1, [true, false, false], [], false, false⟩, [.enterCheck ⟨4⟩], []⟩
        0 false = some s ∧
      s.lot.spots = ([true, false, false] : List Bool).set i true ∧
      s.lot.currentCars = 1 + 1 ∧
      s.lot.waitingQueue = [] ∧ s.lot.gate = false ∧
      s.events = [] ++ [⟨4, (i : Int), "parked", 0⟩] ∧
      s.tasks = [.done, .leaveGate ⟨4⟩ (i : Int)] ∧
      s.lot.capacity = 3 ∧ s.lot.stopSignal = false :=
  ⟨⟨by decide, by decide, by decide, rfl⟩,
    TryToEnter_parks_first_free ⟨3, 1, [true, false, false], [], false, false⟩ ⟨4⟩ [] 0
      (by decide) (by decide) (by decide) rfl⟩

theorem decInt64_eq (x : Int) (h : -9223372036854775808 < x) : decInt64 x = x - 1 := by
  have hne : ¬ x = -9223372036854775808 := by omega
  simp [decInt64, hne]

theorem leaveCritical_queue (p : ParkingLot) (spot : Int) (r : ParkingLot × Option Car)
    (h : leaveCritical p spot = .ok r) :
    p.waitingQueue = (r.2.map (fun nv => nv.ID)).toList ++ r.1.waitingQueue := by
  unfold leaveCritical at h
  split at h
  · cases hq : p.waitingQueue with
    | nil =>
      simp only [hq] at h
      injection h with h
      subst h
      simp [hq]
    | cons nextID rest =>
      simp only [hq] at h
      injection h with h
      subst h
      simp
  · cases h

theorem findSpot_queue (p : ParkingLot) : (findSpot p).1.waitingQueue = p.waitingQueue := by
  unfold findSpot
  split <;> rfl

theorem fifo_step (s s1 : Sys) (a : Action) (h : step s a = some s1) :
    s.lot.waitingQueue ++ enqueues s a = dequeues s a ++ s1.lot.waitingQueue := by
  cases a with
  | arrive v =>
    simp only [step, Option.some.injEq] at h
    subst h
    simp [enqueues, dequeues]
  | stop =>
    by_cases hs : s.lot.stopSignal = true
    · simp [step, Stop, hs] at h
    · simp only [step, Stop, hs, Bool.false_eq_true, if_false, Option.some.injEq] at h
      subst h
      simp [enqueues, dequeues]
  | run i cancel =>
    simp only [step] at h
    cases ht : s.tasks[i]? with
    | none => simp [ht] at h
    | some t =>
      cases hst : stepTask s.lot cancel t with
      | none => simp [ht, hst] at h
      | some r =>
        simp only [ht, hst, Option.some.injEq] at h
        subst h
        cases t with
        | leaveCrit v spot =>
          simp only [stepTask, Leave] at hst
          cases hl : leaveCritical s.lot spot with
          | error e => simp [hl] at hst
          | ok q =>
            simp only [hl, Option.some.injEq] at hst
            subst hst
            have hq := leaveCritical_queue s.lot spot q hl
            obtain ⟨p1, nv⟩ := q
            cases nv <;> simpa [enqueues, dequeues, ht, hl] using hq
        | enterFind v =>
          simp only [stepTask, TryToEnter] at hst
          have hq := findSpot_queue s.lot
          split at hst <;> simp only [Option.some.injEq] at hst <;> subst hst <;>
            simpa [enqueues, dequeues, ht] using hq.symm
        | enterAppend v =>
          simp only [stepTask, TryToEnter, Option.some.injEq] at hst
          subst hst
          simp [enqueues, dequeues, ht]
        | _ =>
          simp only [stepTask, TryToEnter, Leave] at hst
          (repeat' split at hst) <;> (try simp only [Option.some.injEq] at hst) <;>
            (try subst hst) <;> simp_all [enqueues, dequeues]

theorem fifo_exec (sched : List Action) (s s1 : Sys) (h : exec s sched = some s1) :
    s.lot.waitingQueue ++ enqueued s sched = dequeued s sched ++ s1.lot.waitingQueue := by
  induction sched generalizing s with
  | nil =>
    simp only [exec, Option.some.injEq] at h
    subst h
    simp [enqueued, dequeued]
  | cons a rest ih =>
    simp only [exec] at h
    cases hs : step s a with
    | none => simp [hs] at h
    | some s2 =>
      simp only [hs] at h
      have h1 := fifo_step s s2 a hs
      have h2 := ih s2 h
      simp only [enqueued, dequeued, hs]
      rw [← List.append_assoc, h1, List.append_assoc, h2, List.append_assoc]

/-- C7. On a lot with a free gate, an in-range `spot` and `currentCars` above
`math.MinInt64`, a `Leave` run alone whose `select` takes the gate sets
`spots[spot]` to `false`, decrements `currentCars`, keeps the other spots,
publishes one "left" event with the vehicle's ID and the spot, and frees the
gate; a non-empty waiting queue loses exactly its head, whose `TryToEnter` is
started, and an empty queue stays empty with nothing started. Strict FIFO: over
any schedule from any state, the IDs popped by `Leave`, in the order of the
pops, followed by the final queue are the initial queue followed by the IDs
appended by `TryToEnter`, in the order of the appends. -/
theorem Leave_frees_spot_and_pops_head (p : ParkingLot) (v : Car) (spot : Int)
    (evs : List Position) (fuel : Nat) (hgate : p.gate = false)
    (hlo : 0 ≤ spot) (hhi : spot < (p.spots.length : Int))
    (hmin : -9223372036854775808 < p.currentCars)
    (s0 : Sys) (sched : List Action) (s1 : Sys) (hexec : exec s0 sched = some s1) :
    (∃ s, runAlone (fuel + 4) ⟨p, [.leaveGate v spot], evs⟩ 0 false = some s ∧
      s.lot.spots = p.spots.set spot.toNat false ∧
      s.lot.currentCars = p.currentCars - 1 ∧ s.lot.gate = false ∧
      s.events = evs ++ [⟨v.ID, spot, "left", 0⟩] ∧
      s.lot.capacity = p.capacity ∧ s.lot.stopSignal = p.stopSignal ∧
      (∀ nextID rest, p.waitingQueue = nextID :: rest →
        s.lot.waitingQueue = rest ∧ s.tasks = [.done, .enterCheck ⟨nextID⟩]) ∧
      (p.waitingQueue = [] → s.lot.waitingQueue = [] ∧ s.tasks = [.done])) ∧
    s0.lot.waitingQueue ++ enqueued s0 sched = dequeued s0 sched ++ s1.lot.waitingQueue := by
  have hin : spot.toNat < p.spots.length := by omega
  have hdec := decInt64_eq p.currentCars hmin
  refine ⟨?_, fifo_exec sched s0 s1 hexec⟩
  cases hq : p.waitingQueue with
  | nil =>
    simp [runAlone, step, stepTask, TryToEnter, Leave, leaveCritical, hgate, hlo, hin, hq,
      hdec, runAlone_done]
  | cons nextID rest =>
    simp [runAlone, step, stepTask, TryToEnter, Leave, leaveCritical, hgate, hlo, hin, hq,
      hdec, runAlone_done]

theorem Leave_frees_spot_and_pops_head_witness :
    ((false : Bool) = false ∧ (0 : Int) ≤ 1 ∧
      (1 : Int) < (([true, true] : List Bool).length : Int) ∧
      (-9223372036854775808 : Int) < 2 ∧
      exec (initSys ⟨1, 0, [false], [], false, false⟩) queueTwoThenLeave =
        some ⟨⟨1, 0, [false], [3], false, false⟩,
          [.done, .done, .done, .done, .enterCheck ⟨2⟩],
          [⟨1, 0, "parked", 0⟩, ⟨2, 0, "waiting in queue", 1⟩,
            ⟨3, 0, "waiting in queue", 2⟩, ⟨1, 0, "left", 0⟩]⟩) ∧
    (∃ s, runAlone (0 + 4) ⟨⟨2, 2, [true, true], [5, 6], false, false⟩, [.leaveGate ⟨3⟩ 1], []⟩
        0 false = some s ∧
      s.lot.spots = ([true, true] : List Bool).set (1 : Int).toNat false ∧
      s.lot.currentCars = 2 - 1 ∧ s.lot.gate = false ∧
      s.events = [] ++ [⟨3, 1, "left", 0⟩] ∧
      s.lot.capacity = 2 ∧ s.lot.stopSignal = false ∧
      (∀ nextID rest, ([5, 6] : List Int) = nextID :: rest →
        s.lot.waitingQueue = rest ∧ s.tasks = [.done, .enterCheck ⟨nextID⟩]) ∧
      (([5, 6] : List Int) = [] → s.lot.waitingQueue = [] ∧ s.tasks = [.done])) ∧
    ([] : List Int) ++ enqueued (initSys ⟨1, 0, [false], [], false, false⟩) queueTwoThenLeave =
      dequeued (initSys ⟨1, 0, [false], [], false, false⟩) queueTwoThenLeave ++ [3] := by
  have hexec : exec (initSys ⟨1, 0, [false], [], false, false⟩) queueTwoThenLeave =
      some ⟨⟨1, 0, [false], [3], false, false⟩,
        [.done, .done, .done, .done, .enterCheck ⟨2⟩],
        [⟨1, 0, "parked", 0⟩, ⟨2, 0, "waiting in queue", 1⟩,
          ⟨3, 0, "waiting in queue", 2⟩, ⟨1, 0, "left", 0⟩]⟩ := by
    decide
  exact ⟨⟨rfl, by decide, by decide, by decide, hexec⟩,
    Leave_frees_spot_and_pops_head ⟨2, 2, [true, true], [5, 6], false, false⟩ ⟨3⟩ 1 [] 0
      rfl (by decide) (by decide) (by decide) _ queueTwoThenLeave _ hexec⟩

/-! ## Construction and shutdown -/

/-- C8 (counterexample). `NewParkingLot(0)` does not fail: it returns a lot
with no spots. -/
theorem NewParkingLot_zero_accepted :
    NewParkingLot 0 = .ok ⟨0, 0, [], [], false, false⟩ :=
  rfl

/-- C8 (amended). For a capacity `<= 0`, `NewParkingLot` fails exactly when the
capacity is negative (the slice allocation panics); capacity `0` yields a lot
without spots. -/
theorem NewParkingLot_nonpositive (capacity : Int) (h : capacity ≤ 0) :
    NewParkingLot capacity =
      if capacity = 0 then .ok ⟨0, 0, [], [], false, false⟩
      else .error .makesliceLenOutOfRange := by
  by_cases h0 : capacity = 0
  · subst h0
    simp [NewParkingLot]
  · have hneg : capacity < 0 := by omega
    simp [NewParkingLot, hneg, h0]

theorem NewParkingLot_nonpositive_witness :
    (-3 : Int) ≤ 0 ∧
    NewParkingLot (-3) =
      if (-3 : Int) = 0 then .ok ⟨0, 0, [], [], false, false⟩
      else .error .makesliceLenOutOfRange :=
  ⟨by decide, NewParkingLot_nonpositive (-3) (by decide)⟩

/-- C3 (counterexample). A second `Stop` on a fresh lot of capacity 2 panics
with a close of a closed channel. -/
theorem Stop_second_call_panics :
    ∃ p1, Stop ⟨2, 0, [false, false], [], false, false⟩ = .ok p1 ∧
      Stop p1 = .error .closeOfClosedChannel :=
  ⟨⟨2, 0, [false, false], [], false, true⟩, rfl, rfl⟩

/-- C3 (amended). The first `Stop` on a lot whose signal is not yet triggered
succeeds, triggers the signal and changes nothing else; every `Stop` on a lot
whose signal is triggered panics. -/
theorem Stop_one_shot (p : ParkingLot) (h : p.stopSignal = false) :
    Stop p = .ok { p with stopSignal := true } ∧
      Stop { p with stopSignal := true } = .error .closeOfClosedChannel := by
  simp [Stop, h]

theorem Stop_one_shot_witness :
    (false : Bool) = false ∧
    (Stop ⟨2, 1, [true, false], [], false, false⟩ = .ok ⟨2, 1, [true, false], [], false, true⟩ ∧
      Stop ⟨2, 1, [true, false], [], false, true⟩ = .error .closeOfClosedChannel) :=
  ⟨rfl, Stop_one_shot ⟨2, 1, [true, false], [], false, false⟩ rfl⟩

/-- C2 (failing input). Capacity 1, two arrivals that both pass the capacity
check: after vehicle 2 took the gate and `findSpot` returned `-1`, its call has
returned without an event, the gate still holds its token, and the departure of
vehicle 1 cannot take the gate: its `select` blocks and it stays blocked. -/
theorem TryToEnter_no_spot_keeps_gate :
    exec (initSys ⟨1, 0, [false], [], false, false⟩) overAdmission =
      some ⟨⟨1, 1, [true], [], true, false⟩, [.done, .done, .leaveGate ⟨1⟩ 0],
        [⟨1, 0, "parked", 0⟩]⟩ ∧
    step ⟨⟨1, 1, [true], [], true, false⟩, [.done, .done, .leaveGate ⟨1⟩ 0],
        [⟨1, 0, "parked", 0⟩]⟩ (.run 2 false) =
      some ⟨⟨1, 1, [true], [], true, false⟩, [.done, .done, .leaveWait ⟨1⟩ 0],
        [⟨1, 0, "parked", 0⟩]⟩ ∧
    step ⟨⟨1, 1, [true], [], true, false⟩, [.done, .done, .leaveWait ⟨1⟩ 0],
        [⟨1, 0, "parked", 0⟩]⟩ (.run 2 false) = none ∧
    step ⟨⟨1, 1, [true], [], true, false⟩, [.done, .done, .leaveWait ⟨1⟩ 0],
        [⟨1, 0, "parked", 0⟩]⟩ (.run 2 true) = none ∧
    step ⟨⟨1, 1, [true], [], true, false⟩, [.done, .done, .leaveGate ⟨1⟩ 0],
        [⟨1, 0, "parked", 0⟩]⟩ (.run 2 true) = none := by
  decide

/-- C10 (counterexample). An attempt that holds the gate when `Stop` is called
publishes its "parked" event after `Stop`; so does an attempt that has passed
the capacity check when `Stop` is called and whose `select`, run after `Stop`,
takes the free gate. -/
theorem parked_after_Stop :
    (exec (initSys ⟨1, 0, [false], [], false, false⟩) stopWhileInGate =
        some ⟨⟨1, 0, [false], [], true, true⟩, [.enterFind ⟨1⟩], []⟩ ∧
      exec ⟨⟨1, 0, [false], [], true, true⟩, [.enterFind ⟨1⟩], []⟩ finishAttempt =
        some ⟨⟨1, 1, [true], [], false, true⟩, [.done, .leaveGate ⟨1⟩ 0],
          [⟨1, 0, "parked", 0⟩]⟩) ∧
    (exec (initSys ⟨1, 0, [false], [], false, false⟩) stopBeforeSelect =
        some ⟨⟨1, 0, [false], [], false, true⟩, [.enterGate ⟨1⟩], []⟩ ∧
      exec ⟨⟨1, 0, [false], [], false, true⟩, [.enterGate ⟨1⟩], []⟩ selectAndPark =
        some ⟨⟨1, 1, [true], [], false, true⟩, [.done, .leaveGate ⟨1⟩ 0],
          [⟨1, 0, "parked", 0⟩]⟩) := by
  decide

theorem leaveCritical_stopSignal (p : ParkingLot) (spot : Int) (r : ParkingLot × Option Car)
    (h : leaveCritical p spot = .ok r) : r.1.stopSignal = p.stopSignal := by
  unfold leaveCritical at h
  split at h
  · cases hq : p.waitingQueue with
    | nil =>
      simp only [hq] at h
      injection h with h
      subst h
      rfl
    | cons a rest =>
      simp only [hq] at h
      injection h with h
      subst h
      rfl
  · cases h

theorem stepTask_stopSignal (p : ParkingLot) (cancel : Bool) (t : Task) (r : Piece)
    (h : stepTask p cancel t = some r) : r.1.stopSignal = p.stopSignal := by
  cases t with
  | leaveCrit v sp =>
    simp only [stepTask, TryToEnter, Leave] at h
    cases hl : leaveCritical p sp with
    | error e => simp [hl] at h
    | ok q =>
      simp only [hl, Option.some.injEq] at h
      subst h
      exact leaveCritical_stopSignal p sp q hl
  | _ =>
    simp only [stepTask, TryToEnter, Leave, findSpot] at h
    (repeat' split at h) <;> (try simp only [Option.some.injEq] at h) <;>
      (try subst h) <;> (try rfl) <;> simp_all

theorem stepTask_after_Stop (p : ParkingLot) (cancel : Bool) (t : Task) (r : Piece)
    (hstop : p.stopSignal = true) (hcan : canStillPark t = false)
    (h : stepTask p cancel t = some r) :
    published "parked" r.2.2.1 = 0 ∧ canStillPark r.2.1 = false := by
  cases t with
  | leaveCrit v sp =>
    simp only [stepTask, TryToEnter, Leave] at h
    cases hl : leaveCritical p sp with
    | error e => simp [hl] at h
    | ok q =>
      simp only [hl, Option.some.injEq] at h
      subst h
      simp [published, canStillPark]
  | _ =>
    simp only [stepTask, TryToEnter, Leave, canStillPark] at h hcan
    (repeat' split at h) <;> (try simp only [Option.some.injEq] at h) <;>
      (try subst h) <;> simp_all [published, canStillPark]

theorem step_after_Stop (s s1 : Sys) (a : Action) (i : Nat) (t : Task)
    (hstop : s.lot.stopSignal = true) (ht : s.tasks[i]? = some t)
    (hcan : canStillPark t = false) (h : step s a = some s1) :
    s1.lot.stopSignal = true ∧ parksAt i s a = 0 ∧
      ∃ t1, s1.tasks[i]? = some t1 ∧ canStillPark t1 = false := by
  have hi : i < s.tasks.length := by
    rcases Nat.lt_or_ge i s.tasks.length with hlt | hge
    · exact hlt
    · rw [List.getElem?_eq_none hge] at ht
      cases ht
  cases a with
  | arrive v =>
    simp only [step, Option.some.injEq] at h
    subst h
    refine ⟨hstop, rfl, t, ?_, hcan⟩
    simp [List.getElem?_append_left hi, ht]
  | stop => simp [step, Stop, hstop] at h
  | run j cancel =>
    simp only [step] at h
    cases htj : s.tasks[j]? with
    | none => simp [htj] at h
    | some tj =>
      cases hst : stepTask s.lot cancel tj with
      | none => simp [htj, hst] at h
      | some r =>
        simp only [htj, hst, Option.some.injEq] at h
        subst h
        have hsig := stepTask_stopSignal s.lot cancel tj r hst
        refine ⟨by simpa [hstop] using hsig, ?_, ?_⟩
        · by_cases hji : j = i
          · subst hji
            have htt : tj = t := by
              rw [htj] at ht
              exact Option.some.inj ht
            subst htt
            simp [parksAt, htj, hst, (stepTask_after_Stop s.lot cancel tj r hstop hcan hst).1]
          · simp [parksAt, hji]
        · have hlen : i < (s.tasks.set j r.2.1).length := by simpa using hi
          by_cases hji : j = i
          · subst hji
            have htt : tj = t := by
              rw [htj] at ht
              exact Option.some.inj ht
            subst htt
            refine ⟨r.2.1, ?_, (stepTask_after_Stop s.lot cancel tj r hstop hcan hst).2⟩
            simp [List.getElem?_append_left hlen, List.getElem?_set, hi]
          · refine ⟨t, ?_, hcan⟩
            simp [List.getElem?_append_left hlen, List.getElem?_set_ne hji, ht]

theorem exec_after_Stop (sched : List Action) (s s2 : Sys) (i : Nat) (t : Task)
    (hstop : s.lot.stopSignal = true) (ht : s.tasks[i]? = some t)
    (hcan : canStillPark t = false) (h : exec s sched = some s2) :
    parkedBy i s sched = 0 ∧ ∃ t2, s2.tasks[i]? = some t2 ∧ canStillPark t2 = false := by
  induction sched generalizing s t with
  | nil =>
    simp only [exec, Option.some.injEq] at h
    subst h
    exact ⟨rfl, t, ht, hcan⟩
  | cons a rest ih =>
    simp only [exec] at h
    cases hs : step s a with
    | none => simp [hs] at h
    | some s1 =>
      simp only [hs] at h
      obtain ⟨hstop1, hpark, t1, ht1, hcan1⟩ := step_after_Stop s s1 a i t hstop ht hcan hs
      obtain ⟨hrest, hfin⟩ := ih s1 t1 hstop1 ht1 hcan1 h
      refine ⟨?_, hfin⟩
      simp [parkedBy, hs, hpark, hrest]

/-- C10 (amended). A goroutine that is waiting for the gate when `Stop` is
called (blocked in its `select`), and more generally every goroutine that at
the `Stop` step is neither before its `select` in `TryToEnter` nor past it with
the gate, publishes no "parked" event at any later step of any schedule, and
never gets to a program point from which it could. -/
theorem waiting_attempt_silent_after_Stop (s s1 : Sys)
    (hstop : step s .stop = some s1) (i : Nat) (t : Task)
    (ht : s.tasks[i]? = some t) (hcan : canStillPark t = false)
    (sched : List Action) (s2 : Sys) (hexec : exec s1 sched = some s2) :
    parkedBy i s1 sched = 0 ∧ ∃ t2, s2.tasks[i]? = some t2 ∧ canStillPark t2 = false := by
  by_cases hs : s.lot.stopSignal = true
  · simp [step, Stop, hs] at hstop
  · simp only [step, Stop, hs, Bool.false_eq_true, if_false, Option.some.injEq] at hstop
    subst hstop
    exact exec_after_Stop sched _ s2 i t rfl ht hcan hexec

theorem waiting_attempt_silent_after_Stop_witness :
    (step ⟨⟨2, 0, [false, false], [], true, false⟩, [.enterFind ⟨1⟩, .enterWait ⟨2⟩], []⟩ .stop =
        some ⟨⟨2, 0, [false, false], [], true, true⟩, [.enterFind ⟨1⟩, .enterWait ⟨2⟩], []⟩ ∧
      ([Task.enterFind ⟨1⟩, Task.enterWait ⟨2⟩] : List Task)[1]? = some (.enterWait ⟨2⟩) ∧
      canStillPark (.enterWait ⟨2⟩) = false ∧
      exec ⟨⟨2, 0, [false, false], [], true, true⟩, [.enterFind ⟨1⟩, .enterWait ⟨2⟩], []⟩
          holderThenWaiter =
        some ⟨⟨2, 1, [true, false], [], false, true⟩, [.done, .done, .leaveGate ⟨1⟩ 0],
          [⟨1, 0, "parked", 0⟩]⟩) ∧
    (parkedBy 1 ⟨⟨2, 0, [false, false], [], true, true⟩, [.enterFind ⟨1⟩, .enterWait ⟨2⟩], []⟩
        holderThenWaiter = 0 ∧
      ∃ t2, ([Task.done, Task.done, Task.leaveGate ⟨1⟩ 0] : List Task)[1]? = some t2 ∧
        canStillPark t2 = false) := by
  have hexec : exec ⟨⟨2, 0, [false, false], [], true, true⟩,
      [.enterFind ⟨1⟩, .enterWait ⟨2⟩], []⟩ holderThenWaiter =
      some ⟨⟨2, 1, [true, false], [], false, true⟩, [.done, .done, .leaveGate ⟨1⟩ 0],
        [⟨1, 0, "parked", 0⟩]⟩ := by decide
  exact ⟨⟨rfl, rfl, rfl, hexec⟩,
    waiting_attempt_silent_after_Stop
      ⟨⟨2, 0, [false, false], [], true, false⟩, [.enterFind ⟨1⟩, .enterWait ⟨2⟩], []⟩ _ rfl
      1 (.enterWait ⟨2⟩) rfl rfl holderThenWaiter _ hexec⟩

/-! ## The engine invariant -/

theorem count_set_true (l : List Bool) (k : Nat) (h : l[k]? = some false) :
    (l.set k true).count true = l.count true + 1 := by
  induction l generalizing k with
  | nil => simp at h
  | cons b rest ih =>
    cases k with
    | zero =>
      have hb : b = false := by simpa using h
      subst hb
      simp
    | succ m =>
      have hm : rest[m]? = some false := by simpa using h
      simp [List.count_cons, ih m hm]
      omega

theorem count_set_false (l : List Bool) (k : Nat) (h : l[k]? = some true) :
    (l.set k false).count true + 1 = l.count true := by
  induction l generalizing k with
  | nil => simp at h
  | cons b rest ih =>
    cases k with
    | zero =>
      have hb : b = true := by simpa using h
      subst hb
      simp
    | succ m =>
      have hm : rest[m]? = some true := by simpa using h
      have := ih m hm
      simp [List.count_cons]
      omega

theorem tasks_split (ts : List Task) (i : Nat) (t : Task) (h : ts[i]? = some t) :
    ∃ A B, ts = A ++ t :: B ∧ ∀ t1, ts.set i t1 = A ++ t1 :: B := by
  induction ts generalizing i with
  | nil => simp at h
  | cons a rest ih =>
    cases i with
    | zero =>
      have ha : a = t := by simpa using h
      subst ha
      exact ⟨[], rest, rfl, fun _ => rfl⟩
    | succ m =>
      have hm : rest[m]? = some t := by simpa using h
      obtain ⟨A, B, hAB, hset⟩ := ih m hm
      exact ⟨a :: A, B, by simp [hAB], fun t1 => by simp [hset t1]⟩

theorem heldSpots_append (xs ys : List Task) :
    heldSpots (xs ++ ys) = heldSpots xs ++ heldSpots ys := by
  simp [heldSpots, List.filterMap_append]

theorem heldSpots_cons (t : Task) (ts : List Task) :
    heldSpots (t :: ts) = (holds t).toList ++ heldSpots ts := by
  cases h : holds t <;> simp [heldSpots, List.filterMap_cons, h]

theorem heldSpots_nil : heldSpots [] = [] := rfl

theorem published_append (status : String) (xs ys : List Position) :
    published status (xs ++ ys) = published status xs + published status ys := by
  simp [published, List.countP_append]

theorem nodup_move_last (xs ys : List Int) (a : Int) (h : (xs ++ a :: ys).Nodup) :
    (xs ++ (ys ++ [a])).Nodup := by
  have hperm : (xs ++ (ys ++ [a])).Perm (xs ++ a :: ys) :=
    (List.perm_append_left_iff xs).2 (List.perm_append_singleton a ys)
  exact hperm.nodup_iff.2 h

theorem nodup_drop_middle (xs ys : List Int) (a : Int) (h : (xs ++ a :: ys).Nodup) :
    (xs ++ ys).Nodup :=
  h.sublist (List.Sublist.append_left (List.sublist_cons_self a ys) xs)

theorem getElem?_set_true_keeps (l : List Bool) (k n : Nat) (h : l[n]? = some true) :
    (l.set k true)[n]? = some true := by
  rw [List.getElem?_set]
  split
  · have hn : n < l.length := by
      rcases Nat.lt_or_ge n l.length with hlt | hge
      · exact hlt
      · rw [List.getElem?_eq_none hge] at h
        cases h
    subst_vars
    simp [hn]
  · exact h

theorem Inv_frame (p p1 : ParkingLot) (ts ts1 : List Task) (evs evs1 : List Position)
    (hinv : Inv ⟨p, ts, evs⟩)
    (hcap : p1.capacity = p.capacity) (hcars : p1.currentCars = p.currentCars)
    (hspots : p1.spots = p.spots)
    (hsub : ∀ sp ∈ heldSpots ts1, sp ∈ heldSpots ts)
    (hnd : (heldSpots ts).Nodup → (heldSpots ts1).Nodup)
    (hbal : ts1.countP preLeft + published "left" evs1 + ts.countP preParked +
        published "parked" evs =
      ts.countP preLeft + published "left" evs + ts1.countP preParked +
        published "parked" evs1) :
    Inv ⟨p1, ts1, evs1⟩ := by
  obtain ⟨hlen, hcnt, hheld, hnodup, hb⟩ := hinv
  refine ⟨?_, ?_, ?_, hnd hnodup, ?_⟩
  · simpa [hspots, hcap] using hlen
  · simpa [hspots, hcars] using hcnt
  · intro sp hsp
    simpa [hspots] using hheld sp (hsub sp hsp)
  · simp only [hspots] at *
    omega

theorem Inv_run (p : ParkingLot) (A B : List Task) (t : Task) (evs : List Position)
    (cancel : Bool) (hinv : Inv ⟨p, A ++ t :: B, evs⟩)
    (p1 : ParkingLot) (t1 : Task) (evs1 : List Position) (spawned : List Task)
    (h : stepTask p cancel t = some (p1, t1, evs1, spawned)) :
    Inv ⟨p1, A ++ t1 :: B ++ spawned, evs ++ evs1⟩ := by
  cases t with
  | enterCheck v =>
    simp only [stepTask, TryToEnter, Leave] at h
    split at h <;> simp at h <;> obtain ⟨rfl, rfl, rfl, rfl⟩ := h
    all_goals
      refine Inv_frame _ _ _ _ _ _ hinv rfl rfl rfl ?_ ?_ ?_ <;>
      simp [heldSpots_append, heldSpots_cons, heldSpots_nil, holds, preParked, preLeft,
        published_append, List.countP_append, List.countP_cons]
  | enterAppend v =>
    simp only [stepTask, TryToEnter, Leave] at h
    simp at h; obtain ⟨rfl, rfl, rfl, rfl⟩ := h
    refine Inv_frame _ _ _ _ _ _ hinv rfl rfl rfl ?_ ?_ ?_ <;>
      simp [heldSpots_append, heldSpots_cons, heldSpots_nil, holds, preParked, preLeft,
        published_append, published, List.countP_append, List.countP_cons]
  | enterNotifyWaiting v q =>
    simp only [stepTask, TryToEnter, Leave] at h
    simp at h; obtain ⟨rfl, rfl, rfl, rfl⟩ := h
    refine Inv_frame _ _ _ _ _ _ hinv rfl rfl rfl ?_ ?_ ?_ <;>
      simp [heldSpots_append, heldSpots_cons, heldSpots_nil, holds, preParked, preLeft,
        published_append, published, List.countP_append, List.countP_cons]
  | enterGate v =>
    simp only [stepTask, TryToEnter, Leave] at h
    (repeat' split at h) <;> simp at h <;> obtain ⟨rfl, rfl, rfl, rfl⟩ := h
    all_goals
      refine Inv_frame _ _ _ _ _ _ hinv rfl rfl rfl ?_ ?_ ?_ <;>
      simp [heldSpots_append, heldSpots_cons, heldSpots_nil, holds, preParked, preLeft,
        published_append, published, List.countP_append, List.countP_cons]
  | enterWait v =>
    simp only [stepTask, TryToEnter, Leave] at h
    (repeat' split at h) <;> simp at h <;> obtain ⟨rfl, rfl, rfl, rfl⟩ := h
    all_goals
      refine Inv_frame _ _ _ _ _ _ hinv rfl rfl rfl ?_ ?_ ?_ <;>
      simp [heldSpots_append, heldSpots_cons, heldSpots_nil, holds, preParked, preLeft,
        published_append, published, List.countP_append, List.countP_cons]
  | enterRelease v sp =>
    simp only [stepTask, TryToEnter, Leave] at h
    split at h <;> simp at h; obtain ⟨rfl, rfl, rfl, rfl⟩ := h
    refine Inv_frame _ _ _ _ _ _ hinv rfl rfl rfl ?_ ?_ ?_ <;>
      simp [heldSpots_append, heldSpots_cons, heldSpots_nil, holds, preParked, preLeft,
        published_append, published, List.countP_append, List.countP_cons]
  | leaveRelease v sp n =>
    simp only [stepTask, TryToEnter, Leave] at h
    split at h <;> simp at h; obtain ⟨rfl, rfl, rfl, rfl⟩ := h
    refine Inv_frame _ _ _ _ _ _ hinv rfl rfl rfl ?_ ?_ ?_ <;>
      simp [heldSpots_append, heldSpots_cons, heldSpots_nil, holds, preParked, preLeft,
        published_append, published, List.countP_append, List.countP_cons]
  | done => simp [stepTask, TryToEnter, Leave] at h
  | enterNotifyParked v sp =>
    simp only [stepTask, TryToEnter, Leave] at h
    simp at h; obtain ⟨rfl, rfl, rfl, rfl⟩ := h
    refine Inv_frame _ _ _ _ _ _ hinv rfl rfl rfl ?_ ?_ ?_ <;>
      simp [heldSpots_append, heldSpots_cons, heldSpots_nil, holds, preParked, preLeft,
        published_append, published, List.countP_append, List.countP_cons]
    · intro x hx
      tauto
    · exact nodup_move_last _ _ _
    · omega
  | leaveNotify v sp n =>
    simp only [stepTask, TryToEnter, Leave] at h
    simp at h; obtain ⟨rfl, rfl, rfl, rfl⟩ := h
    cases n <;>
    refine Inv_frame _ _ _ _ _ _ hinv rfl rfl rfl ?_ ?_ ?_ <;>
      simp [heldSpots_append, heldSpots_cons, heldSpots_nil, holds, preParked, preLeft,
        published_append, published, List.countP_append, List.countP_cons] <;>
      omega
  | leaveGate v sp =>
    simp only [stepTask, TryToEnter, Leave] at h
    (repeat' split at h) <;> simp at h <;> obtain ⟨rfl, rfl, rfl, rfl⟩ := h
    all_goals
      refine Inv_frame _ _ _ _ _ _ hinv rfl rfl rfl ?_ ?_ ?_ <;>
      simp [heldSpots_append, heldSpots_cons, heldSpots_nil, holds, preParked, preLeft,
        published_append, published, List.countP_append, List.countP_cons]
    · intro x hx
      tauto
    · exact nodup_drop_middle _ _ _
  | leaveWait v sp =>
    simp only [stepTask, TryToEnter, Leave] at h
    (repeat' split at h) <;> simp at h <;> obtain ⟨rfl, rfl, rfl, rfl⟩ := h
    all_goals
      refine Inv_frame _ _ _ _ _ _ hinv rfl rfl rfl ?_ ?_ ?_ <;>
      simp [heldSpots_append, heldSpots_cons, heldSpots_nil, holds, preParked, preLeft,
        published_append, published, List.countP_append, List.countP_cons]
    · intro x hx
      tauto
    · exact nodup_drop_middle _ _ _
  | enterFind v =>
    simp only [stepTask, TryToEnter, Leave, findSpot] at h
    cases hff : firstFree p.spots with
    | none =>
      simp [hff] at h
      obtain ⟨rfl, rfl, rfl, rfl⟩ := h
      refine Inv_frame _ _ _ _ _ _ hinv rfl rfl rfl ?_ ?_ ?_ <;>
        simp [heldSpots_append, heldSpots_cons, heldSpots_nil, holds, preParked, preLeft,
          published_append, published, List.countP_append, List.countP_cons]
    | some k =>
      obtain ⟨hlen, hcnt, hheld, hnodup, hbal⟩ := hinv
      simp only [heldSpots_append, heldSpots_cons, holds, Option.toList, List.nil_append,
        List.mem_append] at hheld hnodup
      simp only [List.countP_append, List.countP_cons, preParked, preLeft] at hbal
      obtain ⟨hk, hget, -⟩ := firstFree_some _ _ hff
      have hne : ¬ ((k : Int) = -1) := by omega
      simp [hff, hne] at h
      obtain ⟨rfl, rfl, rfl, rfl⟩ := h
      have hfresh : ∀ sp, sp ∈ heldSpots A ∨ sp ∈ heldSpots B → sp ≠ (k : Int) := by
        intro sp hsp heq
        have := (hheld sp hsp).2
        rw [heq] at this
        simp [hget] at this
      refine ⟨?_, ?_, ?_, ?_, ?_⟩
      · simpa using hlen
      · have hc : p.currentCars = occupied p.spots := hcnt
        show p.currentCars + 1 = occupied (p.spots.set k true)
        simp only [occupied, count_set_true _ _ hget] at hc ⊢
        omega
      · intro sp hsp
        simp only [heldSpots_append, heldSpots_cons, heldSpots_nil, holds, Option.toList,
          List.mem_append, List.mem_cons, List.mem_singleton, List.append_nil,
          List.not_mem_nil, or_false] at hsp
        rcases hsp with hA | rfl | hB
        · exact ⟨(hheld sp (Or.inl hA)).1, getElem?_set_true_keeps _ _ _ (hheld sp (Or.inl hA)).2⟩
        · refine ⟨by omega, ?_⟩
          simp [hk]
        · exact ⟨(hheld sp (Or.inr hB)).1, getElem?_set_true_keeps _ _ _ (hheld sp (Or.inr hB)).2⟩
      · simp only [heldSpots_append, heldSpots_cons, heldSpots_nil, holds, Option.toList,
          List.append_nil, List.singleton_append]
        rw [List.nodup_append] at hnodup ⊢
        refine ⟨hnodup.1, ?_, ?_⟩
        · rw [List.nodup_cons]
          exact ⟨fun hmem => hfresh _ (Or.inr hmem) rfl, hnodup.2.1⟩
        · intro x hxA hxB
          rcases List.mem_cons.1 hxB with rfl | hxB1
          · exact hfresh _ (Or.inl hxA) rfl
          · exact hnodup.2.2 hxA hxB1
      · simp only [count_set_true _ _ hget, List.countP_append, List.countP_cons, preParked,
          preLeft, published_append, published, List.countP_nil] at hbal ⊢
        simp at hbal ⊢
        omega
  | leaveCrit v sp =>
    obtain ⟨hlen, hcnt, hheld, hnodup, hbal⟩ := hinv
    simp only [heldSpots_append, heldSpots_cons, holds, Option.toList, List.singleton_append,
      List.mem_append, List.mem_cons] at hheld hnodup
    simp only [List.countP_append, List.countP_cons, preParked, preLeft] at hbal
    have hlo : 0 ≤ sp := (hheld sp (Or.inr (Or.inl rfl))).1
    have hget : p.spots[sp.toNat]? = some true := (hheld sp (Or.inr (Or.inl rfl))).2
    have hin : sp.toNat < p.spots.length := by
      rcases Nat.lt_or_ge sp.toNat p.spots.length with hlt | hge
      · exact hlt
      · rw [List.getElem?_eq_none hge] at hget
        cases hget
    have hother : ∀ x, x ∈ heldSpots A ∨ x ∈ heldSpots B → x ≠ sp := by
      intro x hx heq
      subst heq
      rw [List.nodup_append] at hnodup
      rcases hx with hA | hB
      · exact hnodup.2.2 hA (List.mem_cons_self _ _)
      · exact (List.nodup_cons.1 hnodup.2.1).1 hB
    have hkey : ∀ (q : List Int) (nv : Option Car),
        Inv ⟨⟨p.capacity, p.currentCars - 1, p.spots.set sp.toNat false, q, p.gate,
            p.stopSignal⟩,
          A ++ Task.leaveRelease v sp nv :: B ++ [], evs ++ []⟩ := by
      intro q nv
      refine ⟨?_, ?_, ?_, ?_, ?_⟩
      · simpa using hlen
      · have hc : p.currentCars = occupied p.spots := hcnt
        show p.currentCars - 1 = occupied (p.spots.set sp.toNat false)
        have := count_set_false _ _ hget
        simp only [occupied] at hc ⊢
        omega
      · intro x hx
        simp only [heldSpots_append, heldSpots_cons, heldSpots_nil, holds, Option.toList,
          List.mem_append, List.append_nil, List.nil_append] at hx
        have hx1 : x ∈ heldSpots A ∨ x ∈ heldSpots B := hx
        have hx2 := hheld x (hx1.elim Or.inl (fun hB => Or.inr (Or.inr hB)))
        refine ⟨hx2.1, ?_⟩
        have hneq : sp.toNat ≠ x.toNat := by
          have := hother x hx1
          omega
        show (p.spots.set sp.toNat false)[x.toNat]? = some true
        rw [List.getElem?_set_ne hneq]
        exact hx2.2
      · simp only [heldSpots_append, heldSpots_cons, heldSpots_nil, holds, Option.toList,
          List.append_nil, List.nil_append]
        exact nodup_drop_middle _ _ _ hnodup
      · have := count_set_false _ _ hget
        simp only [List.countP_append, List.countP_cons, preParked, preLeft,
          published_append, published, List.countP_nil] at hbal ⊢
        simp at hbal ⊢
        omega
    have hdec : decInt64 p.currentCars = p.currentCars - 1 := by
      have hc : p.currentCars = occupied p.spots := hcnt
      have := count_set_false _ _ hget
      apply decInt64_eq
      simp only [occupied] at hc
      omega
    simp only [stepTask, TryToEnter, Leave, leaveCritical, hlo, hin, and_self, if_true,
      hdec] at h
    cases hq : p.waitingQueue with
    | nil =>
      simp [hq] at h
      obtain ⟨rfl, rfl, rfl, rfl⟩ := h
      exact hkey [] none
    | cons nextID rest =>
      simp [hq] at h
      obtain ⟨rfl, rfl, rfl, rfl⟩ := h
      exact hkey rest (some ⟨nextID⟩)

theorem Inv_step (s s1 : Sys) (a : Action) (hinv : Inv s) (h : step s a = some s1) :
    Inv s1 := by
  cases a with
  | arrive v =>
    simp only [step, Option.some.injEq] at h
    subst h
    refine Inv_frame _ _ _ _ _ _ hinv rfl rfl rfl ?_ ?_ ?_ <;>
      simp [heldSpots_append, heldSpots_cons, heldSpots_nil, holds, preParked, preLeft,
        List.countP_append, List.countP_cons]
  | stop =>
    by_cases hs : s.lot.stopSignal = true
    · simp [step, Stop, hs] at h
    · simp only [step, Stop, hs, Bool.false_eq_true, if_false, Option.some.injEq] at h
      subst h
      refine Inv_frame _ _ _ _ _ _ hinv rfl rfl rfl ?_ ?_ ?_ <;> simp
  | run i cancel =>
    simp only [step] at h
    cases ht : s.tasks[i]? with
    | none => simp [ht] at h
    | some t =>
      cases hst : stepTask s.lot cancel t with
      | none => simp [ht, hst] at h
      | some r =>
        obtain ⟨p1, t1, evs1, spawned⟩ := r
        simp only [ht, hst, Option.some.injEq] at h
        subst h
        obtain ⟨A, B, hAB, hset⟩ := tasks_split s.tasks i t ht
        rw [hset t1]
        have hinv1 : Inv ⟨s.lot, A ++ t :: B, s.events⟩ := by
          rw [← hAB]
          exact hinv
        exact Inv_run s.lot A B t s.events cancel hinv1 p1 t1 evs1 spawned hst

theorem Inv_exec (acts : List Action) (s s1 : Sys) (hinv : Inv s)
    (h : exec s acts = some s1) : Inv s1 := by
  induction acts generalizing s with
  | nil =>
    simp only [exec, Option.some.injEq] at h
    subst h
    exact hinv
  | cons a rest ih =>
    simp only [exec] at h
    cases hs : step s a with
    | none => simp [hs] at h
    | some s2 =>
      simp only [hs] at h
      exact ih s2 (Inv_step s s2 a hinv hs) h

theorem Inv_init (capacity : Int) (p0 : ParkingLot) (h : NewParkingLot capacity = .ok p0) :
    Inv (initSys p0) ∧ p0.capacity = capacity := by
  unfold NewParkingLot at h
  split at h
  · cases h
  · rename_i hneg
    injection h with h
    subst h
    have hnn : 0 ≤ capacity := by omega
    refine ⟨⟨?_, ?_, ?_, ?_, ?_⟩, rfl⟩
    · simp [initSys, Int.toNat_of_nonneg hnn]
    · simp [initSys, occupied, List.count_replicate]
    · simp [initSys, heldSpots]
    · simp [initSys, heldSpots]
    · simp [initSys, published, List.count_replicate]

theorem leaveCritical_capacity (p : ParkingLot) (spot : Int) (r : ParkingLot × Option Car)
    (h : leaveCritical p spot = .ok r) : r.1.capacity = p.capacity := by
  unfold leaveCritical at h
  split at h
  · cases hq : p.waitingQueue with
    | nil =>
      simp only [hq] at h
      injection h with h
      subst h
      rfl
    | cons a rest =>
      simp only [hq] at h
      injection h with h
      subst h
      rfl
  · cases h

theorem stepTask_capacity (p : ParkingLot) (cancel : Bool) (t : Task)
    (r : Piece)
    (h : stepTask p cancel t = some r) : r.1.capacity = p.capacity := by
  cases t with
  | leaveCrit v sp =>
    simp only [stepTask, TryToEnter, Leave] at h
    cases hl : leaveCritical p sp with
    | error e => simp [hl] at h
    | ok q =>
      simp only [hl, Option.some.injEq] at h
      subst h
      exact leaveCritical_capacity p sp q hl
  | _ =>
    simp only [stepTask, TryToEnter, Leave, findSpot] at h
    (repeat' split at h) <;> simp_all <;> (try subst h) <;> (try rfl)

theorem step_capacity (s s1 : Sys) (a : Action) (h : step s a = some s1) :
    s1.lot.capacity = s.lot.capacity := by
  cases a with
  | arrive v =>
    simp only [step, Option.some.injEq] at h
    subst h
    rfl
  | stop =>
    by_cases hs : s.lot.stopSignal = true
    · simp [step, Stop, hs] at h
    · simp only [step, Stop, hs, Bool.false_eq_true, if_false, Option.some.injEq] at h
      subst h
      rfl
  | run i cancel =>
    simp only [step] at h
    cases ht : s.tasks[i]? with
    | none => simp [ht] at h
    | some t =>
      cases hst : stepTask s.lot cancel t with
      | none => simp [ht, hst] at h
      | some r =>
        simp only [ht, hst, Option.some.injEq] at h
        subst h
        exact stepTask_capacity s.lot cancel t r hst

theorem exec_capacity (acts : List Action) (s s1 : Sys) (h : exec s acts = some s1) :
    s1.lot.capacity = s.lot.capacity := by
  induction acts generalizing s with
  | nil =>
    simp only [exec, Option.some.injEq] at h
    subst h
    rfl
  | cons a rest ih =>
    simp only [exec] at h
    cases hs : step s a with
    | none => simp [hs] at h
    | some s2 =>
      simp only [hs] at h
      rw [ih s2 h, step_capacity s s2 a hs]

/-- C1. In every state reached from `NewParkingLot(capacity)`, `capacity > 0`,
by any schedule of arrivals, atomic goroutine pieces and `Stop`, `currentCars`
is the number of `true` entries of `spots` and lies between 0 and `capacity`. -/
theorem occupancy_invariant (capacity : Int) (hpos : 0 < capacity) :
    ∃ p0, NewParkingLot capacity = .ok p0 ∧
      ∀ (acts : List Action) (s : Sys), exec (initSys p0) acts = some s →
        s.lot.currentCars = occupied s.lot.spots ∧ 0 ≤ s.lot.currentCars ∧
          s.lot.currentCars ≤ capacity ∧ s.lot.capacity = capacity := by
  have hnn : ¬ capacity < 0 := by omega
  have hok : NewParkingLot capacity =
      .ok ⟨capacity, 0, List.replicate capacity.toNat false, [], false, false⟩ := by
    simp [NewParkingLot, hnn]
  refine ⟨_, hok, ?_⟩
  intro acts s hexec
  obtain ⟨hinit, hcap0⟩ := Inv_init capacity _ hok
  have hinv := Inv_exec acts _ s hinit hexec
  have hcap : s.lot.capacity = capacity := by
    rw [exec_capacity acts _ s hexec]
    exact hcap0
  have hle : s.lot.spots.count true ≤ s.lot.spots.length := List.count_le_length true _
  have hlen := hinv.len
  have hcnt := hinv.cnt
  simp only [occupied] at hcnt ⊢
  refine ⟨hcnt, ?_, ?_, hcap⟩ <;> omega

theorem occupancy_invariant_witness :
    (0 : Int) < 1 ∧
    ∃ p0, NewParkingLot 1 = .ok p0 ∧
      exec (initSys p0) overAdmission =
        some ⟨⟨1, 1, [true], [], true, false⟩, [.done, .done, .leaveGate ⟨1⟩ 0],
          [⟨1, 0, "parked", 0⟩]⟩ ∧
      ((1 : Int) = occupied [true] ∧ (0 : Int) ≤ 1 ∧ (1 : Int) ≤ 1 ∧ (1 : Int) = 1) := by
  refine ⟨by decide, ?_⟩
  obtain ⟨p0, hnew, hall⟩ := occupancy_invariant 1 (by decide)
  have hp : p0 = ⟨1, 0, [false], [], false, false⟩ := by
    have h1 : NewParkingLot 1 = .ok ⟨1, 0, [false], [], false, false⟩ := rfl
    rw [h1] at hnew
    injection hnew with hnew
    exact hnew.symm
  subst hp
  have hexec : exec (initSys ⟨1, 0, [false], [], false, false⟩) overAdmission =
      some ⟨⟨1, 1, [true], [], true, false⟩, [.done, .done, .leaveGate ⟨1⟩ 0],
        [⟨1, 0, "parked", 0⟩]⟩ := by decide
  exact ⟨_, hnew, hexec, hall overAdmission _ hexec⟩

/-- C9. From an empty lot of capacity `> 0`, after any schedule of arrivals and
goroutine pieces that ends with every goroutine returned and with as many "left"
events as "parked" events (every admitted vehicle was followed by its own
`Leave`), `currentCars` is 0 and every entry of `spots` is `false`. -/
theorem round_trip_empties_lot (capacity : Int) (hpos : 0 < capacity) :
    ∃ p0, NewParkingLot capacity = .ok p0 ∧
      ∀ (acts : List Action) (s : Sys), exec (initSys p0) acts = some s →
        (∀ t ∈ s.tasks, t = .done) →
        published "left" s.events = published "parked" s.events →
        s.lot.currentCars = 0 ∧ ∀ b ∈ s.lot.spots, b = false := by
  have hnn : ¬ capacity < 0 := by omega
  have hok : NewParkingLot capacity =
      .ok ⟨capacity, 0, List.replicate capacity.toNat false, [], false, false⟩ := by
    simp [NewParkingLot, hnn]
  refine ⟨_, hok, ?_⟩
  intro acts s hexec hquiet hleft
  obtain ⟨hinit, -⟩ := Inv_init capacity _ hok
  have hinv := Inv_exec acts _ s hinit hexec
  have h1 : s.tasks.countP preLeft = 0 := by
    rw [List.countP_eq_zero]
    intro t ht
    rw [hquiet t ht]
    simp [preLeft]
  have h2 : s.tasks.countP preParked = 0 := by
    rw [List.countP_eq_zero]
    intro t ht
    rw [hquiet t ht]
    simp [preParked]
  have hbal := hinv.bal
  have hzero : s.lot.spots.count true = 0 := by omega
  refine ⟨?_, ?_⟩
  · rw [hinv.cnt, occupied, hzero]
    rfl
  · intro b hb
    have hnot : true ∉ s.lot.spots := List.count_eq_zero.1 hzero
    cases b with
    | false => rfl
    | true => exact absurd hb hnot

theorem round_trip_empties_lot_witness :
    (0 : Int) < 1 ∧
    ∃ p0, NewParkingLot 1 = .ok p0 ∧
      exec (initSys p0) parkAndLeave =
        some ⟨⟨1, 0, [false], [], false, false⟩, [.done, .done],
          [⟨1, 0, "parked", 0⟩, ⟨1, 0, "left", 0⟩]⟩ ∧
      (∀ t ∈ [Task.done, Task.done], t = .done) ∧
      published "left" [⟨1, 0, "parked", 0⟩, ⟨1, 0, "left", 0⟩] =
        published "parked" [⟨1, 0, "parked", 0⟩, ⟨1, 0, "left", 0⟩] ∧
      ((0 : Int) = 0 ∧ ∀ b ∈ [false], b = false) := by
  refine ⟨by decide, ?_⟩
  obtain ⟨p0, hnew, hall⟩ := round_trip_empties_lot 1 (by decide)
  have hp : p0 = ⟨1, 0, [false], [], false, false⟩ := by
    have h1 : NewParkingLot 1 = .ok ⟨1, 0, [false], [], false, false⟩ := rfl
    rw [h1] at hnew
    injection hnew with hnew
    exact hnew.symm
  subst hp
  have hexec : exec (initSys ⟨1, 0, [false], [], false, false⟩) parkAndLeave =
      some ⟨⟨1, 0, [false], [], false, false⟩, [.done, .done],
        [⟨1, 0, "parked", 0⟩, ⟨1, 0, "left", 0⟩]⟩ := by decide
  exact ⟨_, hnew, hexec, by decide, by decide,
    hall parkAndLeave _ hexec (by decide) (by decide)⟩

/-! ## Scenario B -/

theorem scenarioB_lot (a b c : Car) : NewParkingLot 2 = .ok (scenarioB a b c).lot :=
  rfl

end ParkingSim
